import Mathlib

/-!
Shallow embedding of the triff key-value store (core/database.go,
storage/memory_engine.go, storage/disk_engine.go, commands string
operations) and proofs about the claims of its specification.

Modelling conventions:
- the Go map `map[string]*TriffValue` becomes an association list with the
  usual map operations (the Go map has unique keys; the insert operation
  below maintains that invariant);
- `time.Now().Unix()` becomes an explicit `now : Int` argument threaded
  through every operation; `time.Time` stamps are likewise modelled as `Int`;
- the dynamic payload `interface\x7b\x7d` becomes the closed sum `GoValue`;
  a failed Go type assertion (a panic) is modelled by returning `none`
  at the outer `Option` level of a command;
- Go strings are modelled as sequences of characters.
-/

inductive DataType where
  | STRING
  | HASH
  | LIST
  | SET
  | ZSET
deriving DecidableEq, Repr

/-- GoValue models the dynamic payload field of a TriffValue. -/
inductive GoValue where
  | str : String → GoValue
  | intVal : Int → GoValue
  | other : GoValue
deriving DecidableEq, Repr

/-- TriffValue mirrors core.TriffValue: a tagged payload with a TTL field
(0 means no expiration, otherwise an absolute unix-seconds deadline) and
two timestamps. -/
structure TriffValue where
  type : DataType
  data : GoValue
  ttl : Int
  createdAt : Int
  updatedAt : Int
deriving DecidableEq, Repr

/-- The store contents: the Go map from key to value, as an association
list with unique keys. -/
abbrev Store := List (String × TriffValue)

/-- Go map read `db.Data[key]`. -/
def findVal : Store → String → Option TriffValue
  | [], _ => none
  | p :: rest, key => if p.1 = key then some p.2 else findVal rest key

/-- Go map deletion `delete(db.Data, key)`. -/
def eraseKey (d : Store) (k : String) : Store :=
  d.filter (fun p => p.1 != k)

/-- Go map write `db.Data[key] = value` (replaces any existing binding). -/
def mapSet (d : Store) (k : String) (v : TriffValue) : Store :=
  (k, v) :: eraseKey d k

/-- A value is expired at time `now` when it carries a positive TTL that
`now` has strictly passed (the condition of the lazy check in Get). -/
def expired (now : Int) (v : TriffValue) : Prop :=
  v.ttl > 0 ∧ now > v.ttl

instance (now : Int) (v : TriffValue) : Decidable (expired now v) :=
  inferInstanceAs (Decidable (v.ttl > 0 ∧ now > v.ttl))

namespace Database

/-- core/database.go Get: lookup, lazily evicting an expired value. Returns
the found value (if any) together with the store after the call. -/
def Get (now : Int) (d : Store) (key : String) : Option TriffValue × Store :=
  match findVal d key with
  | none => (none, d)
  | some value =>
    if value.ttl > 0 ∧ now > value.ttl then
      (none, eraseKey d key)
    else
      (some value, d)

/-- core/database.go Set: stamps UpdatedAt with now, stamps CreatedAt only
when the key was absent, then writes the value into the map. -/
def Set (now : Int) (d : Store) (key : String) (value : TriffValue) : Store :=
  let value1 := { value with updatedAt := now }
  let value2 :=
    if (findVal d key).isSome then value1
    else { value1 with createdAt := now }
  mapSet d key value2

/-- core/database.go Exists: a plain map membership test. -/
def Exists (d : Store) (key : String) : Bool :=
  (findVal d key).isSome

/-- core/database.go Keys: keeps every key when the pattern is the star
string, otherwise keeps exact matches only. -/
def Keys (d : Store) (pattern : String) : List String :=
  (d.filter (fun p => pattern == "*" || p.1 == pattern)).map (fun p => p.1)

/-- core/database.go GetTTL. -/
def GetTTL (now : Int) (d : Store) (key : String) : Int :=
  match findVal d key with
  | some value =>
    if value.ttl = 0 then
      -1
    else
      let remaining := value.ttl - now
      if remaining ≤ 0 then -2 else remaining
  | none => -2

end Database

namespace MemoryEngine

/-- storage/memory_engine.go Exists: a plain map membership test, same as
the core database one. -/
def Exists (d : Store) (key : String) : Bool :=
  (findVal d key).isSome

end MemoryEngine

section MapLemmas

theorem findVal_eraseKey_self (d : Store) (k : String) :
    findVal (eraseKey d k) k = none := by
  induction d with
  | nil => rfl
  | cons p rest ih =>
    obtain ⟨a, b⟩ := p
    by_cases h : a = k
    · simpa [eraseKey, List.filter_cons, h] using ih
    · simpa [eraseKey, List.filter_cons, h, findVal] using ih

theorem findVal_eraseKey_ne (d : Store) (k k2 : String) (h : k2 ≠ k) :
    findVal (eraseKey d k) k2 = findVal d k2 := by
  induction d with
  | nil => rfl
  | cons p rest ih =>
    obtain ⟨a, b⟩ := p
    by_cases hp : a = k
    · subst hp
      have h2 : a ≠ k2 := Ne.symm h
      simp only [eraseKey, List.filter_cons, bne_self_eq_false, if_false, findVal, h2]
      simpa [eraseKey] using ih
    · by_cases hq : a = k2
      · subst hq
        simp [eraseKey, List.filter_cons, bne_iff_ne, hp, findVal]
      · simp only [eraseKey, List.filter_cons, bne_iff_ne, ne_eq, hp, not_false_eq_true,
          if_true, findVal, hq, if_false]
        simpa [eraseKey] using ih

theorem findVal_mapSet_self (d : Store) (k : String) (v : TriffValue) :
    findVal (mapSet d k v) k = some v := by
  simp [mapSet, findVal]

theorem findVal_mapSet_ne (d : Store) (k k2 : String) (v : TriffValue) (h : k2 ≠ k) :
    findVal (mapSet d k v) k2 = findVal d k2 := by
  have hk : k ≠ k2 := fun he => h he.symm
  simp only [mapSet, findVal, hk, if_false]
  exact findVal_eraseKey_ne d k k2 h

theorem findVal_isSome_iff (d : Store) (k : String) :
    (findVal d k).isSome = true ↔ ∃ v, (k, v) ∈ d := by
  induction d with
  | nil => simp [findVal]
  | cons p rest ih =>
    obtain ⟨a, b⟩ := p
    by_cases h : a = k
    · subst h
      constructor
      · intro _
        exact ⟨b, List.mem_cons_self _ _⟩
      · intro _
        simp [findVal]
    · constructor
      · intro hs
        simp only [findVal, h, if_false] at hs
        obtain ⟨v, hv⟩ := ih.mp hs
        exact ⟨v, List.mem_cons_of_mem _ hv⟩
      · intro hv
        obtain ⟨v, hv⟩ := hv
        rcases List.mem_cons.mp hv with he | hm
        · have : a = k := congrArg Prod.fst he.symm
          exact absurd this h
        · simp only [findVal, h, if_false]
          exact ih.mpr ⟨v, hm⟩

theorem findVal_mem (d : Store) (k : String) (v : TriffValue)
    (h : findVal d k = some v) : (k, v) ∈ d := by
  induction d with
  | nil => cases h
  | cons p rest ih =>
    obtain ⟨a, b⟩ := p
    by_cases hp : a = k
    · simp only [findVal, hp, if_true] at h
      subst hp
      cases h
      exact List.mem_cons_self _ _
    · simp only [findVal, hp, if_false] at h
      exact List.mem_cons_of_mem _ (ih h)

end MapLemmas

/-! Signed 64-bit integers, decimal parsing and printing.

The Go code calls strconv.ParseInt(s, 10, 64) and fmt.Sprintf with the
decimal verb; int64 addition wraps around modulo 2 to the 64. -/

/-- The int64 range. -/
def in64 (x : Int) : Prop :=
  -9223372036854775808 ≤ x ∧ x < 9223372036854775808

instance (x : Int) : Decidable (in64 x) :=
  inferInstanceAs (Decidable (_ ∧ _))

/-- Reduction of an integer into the int64 range, as Go int64 addition
wraps. -/
def wrap64 (x : Int) : Int :=
  (x + 9223372036854775808) % 18446744073709551616 - 9223372036854775808

/-- Numeric value of a run of decimal digit characters. -/
def digitsVal (cs : List Char) : Nat :=
  cs.foldl (fun a c => a * 10 + (c.toNat - 48)) 0

/-- Digit run of strconv.ParseInt base 10 bit size 64: nonempty, all
decimal digits, and the signed value must fit in int64 (strconv returns a
range error otherwise, which the commands treat as a parse failure). -/
def parseDigits (neg : Bool) (cs : List Char) : Option Int :=
  if cs.isEmpty then none
  else if cs.all Char.isDigit then
    let v : Int := if neg then -(digitsVal cs : Int) else (digitsVal cs : Int)
    if -9223372036854775808 ≤ v ∧ v < 9223372036854775808 then some v else none
  else none

/-- strconv.ParseInt(s, 10, 64): an optional sign followed by decimal
digits. -/
def parseInt64 (s : String) : Option Int :=
  match s.data with
  | [] => none
  | c :: rest =>
    if c = '-' then parseDigits true rest
    else if c = '+' then parseDigits false rest
    else parseDigits false (c :: rest)

/-- Decimal digit character for a digit below ten. -/
def digitChar (d : Nat) : Char :=
  Char.ofNat (48 + d)

/-- Most-significant-first decimal digits of a natural number. -/
def natDigits (n : Nat) : List Nat :=
  if _h : n < 10 then [n] else natDigits (n / 10) ++ [n % 10]
decreasing_by
  exact Nat.div_lt_self (by omega) (by omega)

/-- Decimal character run of a natural number. -/
def natToDecChars (n : Nat) : List Char :=
  (natDigits n).map digitChar

/-- fmt.Sprintf with the decimal verb on an int64 value. -/
def intToDecString (v : Int) : String :=
  if v < 0 then String.mk ('-' :: natToDecChars v.natAbs)
  else String.mk (natToDecChars v.toNat)

section Int64Lemmas

theorem wrap64_eq_self (x : Int) (h : in64 x) : wrap64 x = x := by
  unfold wrap64
  unfold in64 at h
  omega

theorem wrap64_in64 (x : Int) : in64 (wrap64 x) := by
  unfold wrap64 in64
  omega

theorem wrap64_cancel (v n : Int) (h : in64 v) :
    wrap64 (wrap64 (v + n) + -n) = v := by
  unfold wrap64 in64 at *
  omega

theorem digitsVal_append_digit (cs : List Char) (c : Char) :
    digitsVal (cs ++ [c]) = digitsVal cs * 10 + (c.toNat - 48) := by
  simp [digitsVal, List.foldl_append]

theorem digitChar_toNat (d : Nat) (h : d < 10) : (digitChar d).toNat = 48 + d := by
  interval_cases d <;> rfl

theorem digitChar_isDigit (d : Nat) (h : d < 10) : (digitChar d).isDigit = true := by
  interval_cases d <;> rfl

theorem digitChar_ne_minus (d : Nat) (h : d < 10) : digitChar d ≠ '-' := by
  interval_cases d <;> decide

theorem digitChar_ne_plus (d : Nat) (h : d < 10) : digitChar d ≠ '+' := by
  interval_cases d <;> decide

theorem natDigits_lt_ten (n : Nat) : ∀ d ∈ natDigits n, d < 10 := by
  induction n using Nat.strong_induction_on with
  | _ n ih =>
    rw [natDigits]
    split
    · intro d hd
      simp at hd
      omega
    · intro d hd
      rcases List.mem_append.mp hd with hl | hr
      · exact ih (n / 10) (Nat.div_lt_self (by omega) (by omega)) d hl
      · simp at hr
        subst hr
        exact Nat.mod_lt _ (by omega)

theorem natDigits_ne_nil (n : Nat) : natDigits n ≠ [] := by
  rw [natDigits]
  split
  · simp
  · simp

theorem digitsVal_natToDecChars (n : Nat) : digitsVal (natToDecChars n) = n := by
  induction n using Nat.strong_induction_on with
  | _ n ih =>
    unfold natToDecChars
    rw [natDigits]
    split
    · simp only [List.map_cons, List.map_nil]
      simp [digitsVal, digitChar_toNat n (by omega)]
    · rw [List.map_append, List.map_singleton, digitsVal_append_digit]
      have h1 : digitsVal (natToDecChars (n / 10)) = n / 10 :=
        ih (n / 10) (Nat.div_lt_self (by omega) (by omega))
      unfold natToDecChars at h1
      rw [h1, digitChar_toNat (n % 10) (Nat.mod_lt _ (by omega))]
      omega

theorem natToDecChars_all_digits (n : Nat) :
    (natToDecChars n).all Char.isDigit = true := by
  rw [List.all_eq_true]
  intro c hc
  rw [natToDecChars] at hc
  obtain ⟨d, hd, hdc⟩ := List.mem_map.mp hc
  subst hdc
  exact digitChar_isDigit d (natDigits_lt_ten n d hd)

theorem parseDigits_natToDecChars (neg : Bool) (n : Nat)
    (h : in64 (if neg then -(n : Int) else (n : Int))) :
    parseDigits neg (natToDecChars n) = some (if neg then -(n : Int) else (n : Int)) := by
  unfold parseDigits
  have hne : natToDecChars n ≠ [] := by
    unfold natToDecChars
    simp [natDigits_ne_nil n]
  rw [if_neg (by simpa [List.isEmpty_iff] using hne)]
  rw [if_pos (natToDecChars_all_digits n)]
  rw [digitsVal_natToDecChars]
  unfold in64 at h
  rw [if_pos h]

theorem parseDigits_natToDecChars_true (n : Nat) (h : in64 (-(n : Int))) :
    parseDigits true (natToDecChars n) = some (-(n : Int)) := by
  have h2 : in64 (if (true : Bool) then -(n : Int) else (n : Int)) := by
    rw [if_pos rfl]
    exact h
  have := parseDigits_natToDecChars true n h2
  rw [if_pos rfl] at this
  exact this

theorem parseDigits_natToDecChars_false (n : Nat) (h : in64 ((n : Int))) :
    parseDigits false (natToDecChars n) = some ((n : Int)) := by
  have h2 : in64 (if (false : Bool) then -(n : Int) else (n : Int)) := by
    rw [if_neg (by simp)]
    exact h
  have := parseDigits_natToDecChars false n h2
  rw [if_neg (by simp)] at this
  exact this

theorem parseInt64_cons (c : Char) (rest : List Char) (s : String)
    (h : s.data = c :: rest) :
    parseInt64 s =
      if c = '-' then parseDigits true rest
      else if c = '+' then parseDigits false rest
      else parseDigits false (c :: rest) := by
  unfold parseInt64
  rw [h]

theorem parseInt64_intToDecString (v : Int) (h : in64 v) :
    parseInt64 (intToDecString v) = some v := by
  by_cases hv : v < 0
  · have hs : (intToDecString v).data = '-' :: natToDecChars v.natAbs := by
      simp [intToDecString, hv]
    rw [parseInt64_cons '-' (natToDecChars v.natAbs) _ hs]
    rw [if_pos rfl]
    have hval : -(v.natAbs : Int) = v := by omega
    have h2 : in64 (-(v.natAbs : Int)) := by
      rw [hval]
      exact h
    rw [parseDigits_natToDecChars_true v.natAbs h2, hval]
  · have hs : (intToDecString v).data = natToDecChars v.toNat := by
      simp [intToDecString, hv]
    have hne : natToDecChars v.toNat ≠ [] := by
      unfold natToDecChars
      simp [natDigits_ne_nil]
    obtain ⟨c, rest, hcr⟩ : ∃ c rest, natToDecChars v.toNat = c :: rest := by
      cases hh : natToDecChars v.toNat with
      | nil => exact absurd hh hne
      | cons c rest => exact ⟨c, rest, rfl⟩
    obtain ⟨d, hd, hdc⟩ : ∃ d, d ∈ natDigits v.toNat ∧ digitChar d = c := by
      have hcmem : c ∈ natToDecChars v.toNat := by
        rw [hcr]
        exact List.mem_cons_self _ _
      rw [natToDecChars] at hcmem
      obtain ⟨d, hd, hdc⟩ := List.mem_map.mp hcmem
      exact ⟨d, hd, hdc⟩
    have hd10 : d < 10 := natDigits_lt_ten _ d hd
    have hcm : ¬ c = '-' := by
      rw [← hdc]
      exact digitChar_ne_minus d hd10
    have hcp : ¬ c = '+' := by
      rw [← hdc]
      exact digitChar_ne_plus d hd10
    rw [parseInt64_cons c rest _ (by rw [hs, hcr]), if_neg hcm, if_neg hcp, ← hcr]
    have hval : ((v.toNat : Int)) = v := by omega
    have h2 : in64 ((v.toNat : Int)) := by
      rw [hval]
      exact h
    rw [parseDigits_natToDecChars_false v.toNat h2, hval]

theorem parseDigits_in64 (neg : Bool) (cs : List Char) (v : Int)
    (hp : parseDigits neg cs = some v) : in64 v := by
  unfold parseDigits at hp
  by_cases h1 : cs.isEmpty = true
  · rw [if_pos h1] at hp
    cases hp
  · rw [if_neg h1] at hp
    by_cases h2 : cs.all Char.isDigit = true
    · rw [if_pos h2] at hp
      by_cases h3 : -9223372036854775808 ≤ (if neg then -(digitsVal cs : Int) else (digitsVal cs : Int)) ∧
          (if neg then -(digitsVal cs : Int) else (digitsVal cs : Int)) < 9223372036854775808
      · rw [if_pos h3] at hp
        cases hp
        exact h3
      · rw [if_neg h3] at hp
        cases hp
    · rw [if_neg h2] at hp
      cases hp

theorem parseInt64_in64 (s : String) (v : Int) (h : parseInt64 s = some v) :
    in64 v := by
  cases hd : s.data with
  | nil =>
    unfold parseInt64 at h
    rw [hd] at h
    cases h
  | cons c rest =>
    rw [parseInt64_cons c rest s hd] at h
    by_cases hm : c = '-'
    · rw [if_pos hm] at h
      exact parseDigits_in64 _ _ _ h
    · rw [if_neg hm] at h
      by_cases hpl : c = '+'
      · rw [if_pos hpl] at h
        exact parseDigits_in64 _ _ _ h
      · rw [if_neg hpl] at h
        exact parseDigits_in64 _ _ _ h

end Int64Lemmas

/-! The command layer: responses and the string commands
(commands source, StringCommands receiver). -/

/-- Payload of a Response. `null` models an unset Data field. -/
inductive RespData where
  | str : String → RespData
  | int : Int → RespData
  | null : RespData
deriving DecidableEq, Repr

/-- core.Response. An empty error string models an unset Error field. -/
structure Response where
  success : Bool
  data : RespData
  error : String
  type : String
deriving DecidableEq, Repr

/-- Response literal of the commands for a type mismatch. -/
def typeMismatchResp : Response :=
  { success := false, data := RespData.null, error := "value is not a string", type := "string" }

/-- Response literal of IncrBy for a parse failure. -/
def notIntegerResp : Response :=
  { success := false, data := RespData.null, error := "value is not a valid integer", type := "string" }

/-- Successful integer response. -/
def okIntResp (n : Int) : Response :=
  { success := true, data := RespData.int n, error := "", type := "integer" }

/-- Successful string response. -/
def okStrResp (s : String) : Response :=
  { success := true, data := RespData.str s, error := "", type := "string" }

/-- The TriffValue literal built by IncrBy and Append: a STRING value with
every other field left at its zero value (in particular TTL is 0). -/
def freshStringVal (s : String) : TriffValue :=
  { type := DataType.STRING, data := GoValue.str s, ttl := 0, createdAt := 0, updatedAt := 0 }

/-- Well-typedness of one value: a STRING-tagged value carries a string
payload, so the type assertions of the command layer cannot panic. -/
def WTValue (v : TriffValue) : Prop :=
  v.type = DataType.STRING → ∃ s, v.data = GoValue.str s

instance (v : TriffValue) : Decidable (WTValue v) := by
  unfold WTValue
  cases hv : v.data with
  | str s => exact isTrue (fun _ => ⟨s, rfl⟩)
  | intVal n =>
    by_cases ht : v.type = DataType.STRING
    · exact isFalse (fun hw => by
        obtain ⟨s, hs⟩ := hw ht
        cases hs)
    · exact isTrue (fun h => absurd h ht)
  | other =>
    by_cases ht : v.type = DataType.STRING
    · exact isFalse (fun hw => by
        obtain ⟨s, hs⟩ := hw ht
        cases hs)
    · exact isTrue (fun h => absurd h ht)

/-- Well-typedness of a whole store. -/
def WTStore (d : Store) : Prop :=
  ∀ p ∈ d, WTValue p.2

instance (d : Store) : Decidable (WTStore d) :=
  inferInstanceAs (Decidable (∀ p ∈ d, WTValue p.2))

/-- The index arithmetic of GetRange, inlined in the command body: adjust
negative indices from the end, clamp, and slice (empty result when the
adjusted start exceeds the adjusted end). -/
def getRangeStr (s : String) (start0 end0 : Int) : String :=
  let length : Int := s.length
  let start1 := if start0 < 0 then length + start0 else start0
  let end1 := if end0 < 0 then length + end0 else end0
  let start2 := if start1 < 0 then 0 else start1
  let end2 := if end1 ≥ length then length - 1 else end1
  if start2 > end2 then ""
  else String.mk ((s.data.drop start2.toNat).take (end2 + 1 - start2).toNat)

/-- Start index after the adjustments of GetRange. -/
def adjStart (s : String) (start0 : Int) : Int :=
  let length : Int := s.length
  let start1 := if start0 < 0 then length + start0 else start0
  if start1 < 0 then 0 else start1

/-- End index after the adjustments of GetRange. -/
def adjEnd (s : String) (end0 : Int) : Int :=
  let length : Int := s.length
  let end1 := if end0 < 0 then length + end0 else end0
  if end1 ≥ length then length - 1 else end1

namespace StringCommands

/-- StringCommands IncrBy: read the current value through Database.Get
(default 0 when absent), require a STRING value holding a parsable
decimal int64, add the increment with int64 wrap-around, and store the
decimal form back. The outer Option models a Go type-assertion panic,
which never fires on a well-typed store. -/
def IncrBy (now : Int) (d : Store) (key : String) (increment : Int) :
    Option (Response × Store) :=
  let r := Database.Get now d key
  match r.1 with
  | none =>
    let newValue := wrap64 (0 + increment)
    some (okIntResp newValue, Database.Set now r.2 key (freshStringVal (intToDecString newValue)))
  | some value =>
    if value.type ≠ DataType.STRING then
      some (typeMismatchResp, r.2)
    else
      match value.data with
      | GoValue.str s =>
        match parseInt64 s with
        | none => some (notIntegerResp, r.2)
        | some currentValue =>
          let newValue := wrap64 (currentValue + increment)
          some (okIntResp newValue, Database.Set now r.2 key (freshStringVal (intToDecString newValue)))
      | _ => none

/-- StringCommands Incr. -/
def Incr (now : Int) (d : Store) (key : String) : Option (Response × Store) :=
  IncrBy now d key 1

/-- StringCommands Decr. -/
def Decr (now : Int) (d : Store) (key : String) : Option (Response × Store) :=
  IncrBy now d key (-1)

/-- StringCommands Append: concatenate onto an existing STRING value
(otherwise start from the argument alone) and store a fresh STRING value,
returning the new length. -/
def Append (now : Int) (d : Store) (key value : String) :
    Option (Response × Store) :=
  let r := Database.Get now d key
  let newValue? : Option String :=
    match r.1 with
    | some existing =>
      if existing.type = DataType.STRING then
        match existing.data with
        | GoValue.str s => some (s ++ value)
        | _ => none
      else some value
    | none => some value
  match newValue? with
  | none => none
  | some newValue =>
    some ({ success := true, data := RespData.int (newValue.length : Int), error := "", type := "integer" },
      Database.Set now r.2 key (freshStringVal newValue))

/-- StringCommands GetRange. -/
def GetRange (now : Int) (d : Store) (key : String) (start0 end0 : Int) :
    Option (Response × Store) :=
  let r := Database.Get now d key
  match r.1 with
  | none => some (okStrResp "", r.2)
  | some value =>
    if value.type ≠ DataType.STRING then
      some (typeMismatchResp, r.2)
    else
      match value.data with
      | GoValue.str s => some (okStrResp (getRangeStr s start0 end0), r.2)
      | _ => none

end StringCommands

/-! Persistence: the memory engine load path and the disk engine
constructor.  The state of the persistence file is abstracted as absent,
malformed (present but not decodable), or good with decoded contents. -/

/-- Abstract state of a persistence file. -/
inductive FileState (α : Type) where
  | absent : FileState α
  | malformed : FileState α
  | good : α → FileState α

namespace MemoryEngine

/-- storage/memory_engine.go loadFromDisk: no-op on an empty path or an
absent file; a decode failure returns an error and leaves the current
data untouched; otherwise the decoded map replaces the data. The result
pairs the returned error with the data field after the call. -/
def loadFromDisk (persistencePath : String) (fs : FileState Store) (data : Store) :
    Except String Store :=
  if persistencePath = "" then Except.ok data
  else
    match fs with
    | FileState.absent => Except.ok data
    | FileState.malformed => Except.error "invalid JSON"
    | FileState.good loaded => Except.ok loaded

/-- storage/memory_engine.go NewMemoryEngine: starts from an empty map,
calls loadFromDisk when a path is configured, and DISCARDS its error: the
constructor always returns an engine (modelled by returning the data map
unconditionally). -/
def New (persistencePath : String) (fs : FileState Store) : Store :=
  if persistencePath = "" then []
  else
    match loadFromDisk persistencePath fs [] with
    | Except.ok loaded => loaded
    | Except.error _ => []

end MemoryEngine

namespace DiskEngine

/-- Contents of the disk engine: a map from string to string. -/
abbrev DiskData := List (String × String)

/-- storage/disk_engine.go load: an absent file is skipped, a decode
failure is an error, otherwise the decoded map replaces the data. -/
def load (fs : FileState DiskData) (data : DiskData) : Except String DiskData :=
  match fs with
  | FileState.absent => Except.ok data
  | FileState.malformed => Except.error "invalid JSON"
  | FileState.good loaded => Except.ok loaded

/-- storage/disk_engine.go NewDiskEngine: construction PROPAGATES the
load error, returning an engine only when load succeeded. -/
def New (_path : String) (fs : FileState DiskData) : Except String DiskData :=
  match load fs [] with
  | Except.ok loaded => Except.ok loaded
  | Except.error e => Except.error e

end DiskEngine

/-! Concrete stores and values used by witnesses and counterexamples. -/

/-- A STRING value whose TTL deadline 5 has passed at time 10. -/
def expiredVal : TriffValue :=
  { type := DataType.STRING, data := GoValue.str "x", ttl := 5, createdAt := 0, updatedAt := 0 }

/-- A one-key store holding an expired value under key a. -/
def storeWithExpired : Store := [("a", expiredVal)]

/-- A store holding the decimal string 41 under key n. -/
def store41 : Store := [("n", freshStringVal "41")]

/-- A store holding the string hello under key h. -/
def helloStore : Store := [("h", freshStringVal "hello")]

/-- A previously stored value whose createdAt stamp is 100. -/
def oldCreated : TriffValue :=
  { type := DataType.STRING, data := GoValue.str "old", ttl := 0, createdAt := 100, updatedAt := 100 }

/-- A fresh incoming value, as the command layer builds them: createdAt 0. -/
def newIncoming : TriffValue :=
  { type := DataType.STRING, data := GoValue.str "new", ttl := 0, createdAt := 0, updatedAt := 0 }

/-- A numeric STRING value with an expiration deadline of 100. -/
def ttlNumVal : TriffValue :=
  { type := DataType.STRING, data := GoValue.str "5", ttl := 100, createdAt := 0, updatedAt := 0 }

/-- A one-key store holding ttlNumVal under key k. -/
def ttlStore : Store := [("k", ttlNumVal)]

/-! Claim C1. -/

/-- Claim C1 is refuted by the code: at time 10 the key a of this store is
expired (Get reports it absent and evicts it), yet Exists — at both the
core database and the memory engine level — still returns true, because
Exists is a plain membership test with no lazy-expiration check. -/
theorem C1_counterexample :
    expired 10 expiredVal ∧
    Database.Exists storeWithExpired "a" = true ∧
    MemoryEngine.Exists storeWithExpired "a" = true ∧
    (Database.Get 10 storeWithExpired "a").1 = none := by
  decide

/-- Claim C1 amended: Exists k is true exactly when k is bound in the map,
with no expiration check; the memory engine Exists agrees with the core
one; in particular an expired but not yet evicted key still reports true
from Exists while Get reports it absent. -/
theorem C1_exists_is_membership (now : Int) (d : Store) (k : String) :
    (Database.Exists d k = true ↔ ∃ v, (k, v) ∈ d) ∧
    MemoryEngine.Exists d k = Database.Exists d k ∧
    (∀ v, findVal d k = some v → expired now v →
      Database.Exists d k = true ∧ (Database.Get now d k).1 = none) := by
  refine ⟨findVal_isSome_iff d k, rfl, ?_⟩
  intro v hv hexp
  constructor
  · unfold Database.Exists
    rw [hv]
    rfl
  · simp only [Database.Get, hv]
    have h2 : v.ttl > 0 ∧ now > v.ttl := hexp
    rw [if_pos h2]

/-- Witness for C1_exists_is_membership at a concrete expired key. -/
theorem C1_exists_is_membership_witness :
    (findVal storeWithExpired "a" = some expiredVal ∧ expired 10 expiredVal) ∧
    (Database.Exists storeWithExpired "a" = true ∧
      (Database.Get 10 storeWithExpired "a").1 = none) :=
  ⟨⟨by decide, by decide⟩,
    (C1_exists_is_membership 10 storeWithExpired "a").2.2 expiredVal (by decide) (by decide)⟩

/-! Claim C2. -/

/-- Claim C2 confirmed: Get returns the value and leaves the store alone
when the key is present and not expired; when the key is present but its
TTL has passed, Get reports it absent and removes it from the store; when
the key is absent Get reports absence with the store unchanged (and, being
a total function, never raises an error). -/
theorem C2_get_contract (now : Int) (d : Store) (k : String) :
    (findVal d k = none → Database.Get now d k = (none, d)) ∧
    (∀ v, findVal d k = some v → ¬ expired now v → Database.Get now d k = (some v, d)) ∧
    (∀ v, findVal d k = some v → expired now v →
      (Database.Get now d k).1 = none ∧ findVal (Database.Get now d k).2 k = none) := by
  refine ⟨?_, ?_, ?_⟩
  · intro h
    unfold Database.Get
    rw [h]
  · intro v hv hne
    simp only [Database.Get, hv]
    have h2 : ¬ (v.ttl > 0 ∧ now > v.ttl) := hne
    rw [if_neg h2]
  · intro v hv hexp
    simp only [Database.Get, hv]
    have h2 : v.ttl > 0 ∧ now > v.ttl := hexp
    rw [if_pos h2]
    exact ⟨rfl, findVal_eraseKey_self d k⟩

/-- Witness for C2_get_contract: the same key read before and after its
TTL deadline. -/
theorem C2_get_contract_witness :
    (findVal storeWithExpired "a" = some expiredVal ∧ ¬ expired 3 expiredVal ∧
      expired 10 expiredVal) ∧
    Database.Get 3 storeWithExpired "a" = (some expiredVal, storeWithExpired) ∧
    ((Database.Get 10 storeWithExpired "a").1 = none ∧
      findVal (Database.Get 10 storeWithExpired "a").2 "a" = none) :=
  ⟨⟨by decide, by decide, by decide⟩,
    (C2_get_contract 3 storeWithExpired "a").2.1 expiredVal (by decide) (by decide),
    (C2_get_contract 10 storeWithExpired "a").2.2 expiredVal (by decide) (by decide)⟩

/-! Claim C3. -/

/-- Claim C3 is refuted by the code: overwriting key k, whose stored value
carries createdAt 100, with a fresh incoming value (createdAt 0) leaves
createdAt 0 in the store — Set does not copy the previous createdAt into
the new value, so the created_at of the previously stored value is lost. -/
theorem C3_counterexample :
    findVal [("k", oldCreated)] "k" = some oldCreated ∧
    oldCreated.createdAt = 100 ∧
    (findVal (Database.Set 200 [("k", oldCreated)] "k" newIncoming) "k").map
      TriffValue.createdAt = some 0 := by
  decide

/-- Claim C3 amended: Set always stamps updatedAt with the current time
and stamps createdAt only when the key was absent; when the key already
exists the stored createdAt is the createdAt field carried by the supplied
value — the previously stored createdAt is not preserved unless the caller
passes it back. Other keys are untouched. -/
theorem C3_set_timestamps (now : Int) (d : Store) (k : String) (v : TriffValue) :
    (findVal d k = none →
      findVal (Database.Set now d k v) k =
        some { v with updatedAt := now, createdAt := now }) ∧
    ((findVal d k).isSome = true →
      findVal (Database.Set now d k v) k = some { v with updatedAt := now }) ∧
    (∀ k2, k2 ≠ k → findVal (Database.Set now d k v) k2 = findVal d k2) := by
  refine ⟨?_, ?_, ?_⟩
  · intro h
    unfold Database.Set
    rw [h]
    simp [findVal_mapSet_self]
  · intro h
    unfold Database.Set
    rw [h]
    simp [findVal_mapSet_self]
  · intro k2 h
    unfold Database.Set
    split
    · exact findVal_mapSet_ne d k k2 _ h
    · exact findVal_mapSet_ne d k k2 _ h

/-- Witness for C3_set_timestamps: first and second Set of the same key. -/
theorem C3_set_timestamps_witness :
    (findVal [] "k" = none ∧ (findVal [("k", oldCreated)] "k").isSome = true) ∧
    findVal (Database.Set 50 [] "k" newIncoming) "k" =
      some { newIncoming with updatedAt := 50, createdAt := 50 } ∧
    findVal (Database.Set 200 [("k", oldCreated)] "k" newIncoming) "k" =
      some { newIncoming with updatedAt := 200 } :=
  ⟨⟨by decide, by decide⟩,
    (C3_set_timestamps 50 [] "k" newIncoming).1 (by decide),
    (C3_set_timestamps 200 [("k", oldCreated)] "k" newIncoming).2.1 (by decide)⟩

/-! Claim C4. -/

/-- Claim C4 is refuted by the code: the star pattern returns every key in
the map with no expiration filtering — key a is expired at time 10 (Get
reports it absent) yet it is returned by Keys. -/
theorem C4_counterexample :
    expired 10 expiredVal ∧
    (Database.Get 10 storeWithExpired "a").1 = none ∧
    "a" ∈ Database.Keys storeWithExpired "*" := by
  decide

/-- Claim C4 amended: Keys with the star pattern returns exactly the keys
bound in the map — including expired, not yet evicted ones; any other
pattern returns exactly the keys equal to the pattern, hence at most one
key when the map keys are unique. -/
theorem C4_keys_membership (d : Store) (p k : String) :
    (k ∈ Database.Keys d p ↔ (∃ v, (k, v) ∈ d) ∧ (p = "*" ∨ k = p)) ∧
    (p ≠ "*" → (d.map Prod.fst).Nodup → (Database.Keys d p).length ≤ 1) := by
  constructor
  · unfold Database.Keys
    rw [List.mem_map]
    constructor
    · rintro ⟨e, he, rfl⟩
      rw [List.mem_filter] at he
      obtain ⟨hed, hcond⟩ := he
      refine ⟨⟨e.2, by simpa using hed⟩, ?_⟩
      rcases Bool.or_eq_true_iff.mp hcond with h | h
      · exact Or.inl (by simpa [beq_iff_eq] using h)
      · exact Or.inr (by simpa [beq_iff_eq] using h)
    · rintro ⟨⟨v, hv⟩, hcond⟩
      refine ⟨(k, v), ?_, rfl⟩
      rw [List.mem_filter]
      refine ⟨hv, ?_⟩
      rcases hcond with h | h
      · simp [h]
      · simp [h]
  · intro hp hnd
    unfold Database.Keys
    rw [List.length_map]
    have hfc : List.filter (fun e => p == "*" || e.1 == p) d =
        List.filter (fun e : String × TriffValue => e.1 == p) d := by
      apply List.filter_congr
      intro e _
      have h1 : (p == "*") = false := by
        simpa using hp
      rw [h1, Bool.false_or]
    rw [hfc]
    have h2 : (List.filter (fun e : String × TriffValue => e.1 == p) d).length =
        List.countP (fun e : String × TriffValue => e.1 == p) d :=
      (List.countP_eq_length_filter _ _).symm
    have h3 : List.countP (fun e : String × TriffValue => e.1 == p) d =
        List.count p (d.map Prod.fst) := by
      rw [List.count, List.countP_map]
      rfl
    rw [h2, h3]
    exact List.nodup_iff_count_le_one.mp hnd p

/-- Witness for C4_keys_membership: a non-star pattern on a concrete
store. -/
theorem C4_keys_membership_witness :
    ("b" ≠ "*" ∧ (storeWithExpired.map Prod.fst).Nodup) ∧
    (Database.Keys storeWithExpired "b").length ≤ 1 :=
  ⟨⟨by decide, by decide⟩,
    (C4_keys_membership storeWithExpired "b" "a").2 (by decide) (by decide)⟩

/-! Claim C5. -/

/-- Claim C5 is refuted by the code on the memory engine: with a malformed
persistence file, loadFromDisk fails, but NewMemoryEngine discards that
error and construction still succeeds, producing an engine with an empty
store — construction does not fail with a fatal error. -/
theorem C5_counterexample :
    MemoryEngine.loadFromDisk "triff.db" FileState.malformed [] =
      Except.error "invalid JSON" ∧
    MemoryEngine.New "triff.db" FileState.malformed = [] :=
  ⟨rfl, rfl⟩

/-- Claim C5 amended: with an absent file both engines construct
successfully with an empty store; a malformed file is fatal only for the
disk engine constructor — the memory engine constructor ignores the load
error and yields an (empty) engine; a decodable file populates the memory
engine. -/
theorem C5_load_contract (path : String) (m : Store) :
    MemoryEngine.New path FileState.absent = [] ∧
    MemoryEngine.New path FileState.malformed = [] ∧
    (path ≠ "" → MemoryEngine.New path (FileState.good m) = m) ∧
    DiskEngine.New path FileState.absent = Except.ok [] ∧
    DiskEngine.New path FileState.malformed = Except.error "invalid JSON" := by
  refine ⟨?_, ?_, ?_, rfl, rfl⟩
  · unfold MemoryEngine.New MemoryEngine.loadFromDisk
    by_cases h : path = "" <;> simp [h]
  · unfold MemoryEngine.New MemoryEngine.loadFromDisk
    by_cases h : path = "" <;> simp [h]
  · intro h
    unfold MemoryEngine.New MemoryEngine.loadFromDisk
    simp [h]

/-- Witness for C5_load_contract at a concrete path and store. -/
theorem C5_load_contract_witness :
    ("triff.db" ≠ "") ∧
    MemoryEngine.New "triff.db" (FileState.good storeWithExpired) = storeWithExpired :=
  ⟨by decide, (C5_load_contract "triff.db" storeWithExpired).2.2.1 (by decide)⟩

/-! Claim C6. -/

/-- Claim C6 confirmed: GetTTL returns -1 for a present key with TTL field
0 (no expiration), -2 for an absent key, -2 for a present key whose
remaining time is not positive (an exactly-zero remainder counts as
expired), and otherwise the remaining seconds, which are strictly
positive. -/
theorem C6_getTTL_contract (now : Int) (d : Store) (k : String) :
    (findVal d k = none → Database.GetTTL now d k = -2) ∧
    (∀ v, findVal d k = some v → v.ttl = 0 → Database.GetTTL now d k = -1) ∧
    (∀ v, findVal d k = some v → v.ttl ≠ 0 → v.ttl - now ≤ 0 →
      Database.GetTTL now d k = -2) ∧
    (∀ v, findVal d k = some v → v.ttl ≠ 0 → 0 < v.ttl - now →
      Database.GetTTL now d k = v.ttl - now ∧ 0 < Database.GetTTL now d k) := by
  refine ⟨?_, ?_, ?_, ?_⟩
  · intro h
    unfold Database.GetTTL
    rw [h]
  · intro v hv h0
    simp only [Database.GetTTL, hv]
    rw [if_pos h0]
  · intro v hv h0 hle
    simp only [Database.GetTTL, hv]
    rw [if_neg h0, if_pos hle]
  · intro v hv h0 hgt
    simp only [Database.GetTTL, hv]
    rw [if_neg h0, if_neg (by omega : ¬ v.ttl - now ≤ 0)]
    exact ⟨rfl, hgt⟩

/-- Witness for C6_getTTL_contract: a live key with a deadline of 100 read
at time 40 has 60 seconds left. -/
theorem C6_getTTL_contract_witness :
    (findVal ttlStore "k" = some ttlNumVal ∧ ttlNumVal.ttl ≠ 0 ∧
      0 < ttlNumVal.ttl - 40) ∧
    (Database.GetTTL 40 ttlStore "k" = ttlNumVal.ttl - 40 ∧
      0 < Database.GetTTL 40 ttlStore "k") :=
  ⟨⟨by decide, by decide, by decide⟩,
    (C6_getTTL_contract 40 ttlStore "k").2.2.2 ttlNumVal (by decide) (by decide) (by decide)⟩

/-! Helper lemmas about Get and Set used by the command-layer claims. -/

theorem Get_eq_absent (now : Int) (d : Store) (k : String)
    (h : findVal d k = none) : Database.Get now d k = (none, d) := by
  simp only [Database.Get, h]

theorem Get_eq_live (now : Int) (d : Store) (k : String) (v : TriffValue)
    (h : findVal d k = some v) (hne : ¬ expired now v) :
    Database.Get now d k = (some v, d) := by
  have h2 : ¬ (v.ttl > 0 ∧ now > v.ttl) := hne
  simp only [Database.Get, h, if_neg h2]

theorem Get_eq_expired (now : Int) (d : Store) (k : String) (v : TriffValue)
    (h : findVal d k = some v) (hexp : expired now v) :
    Database.Get now d k = (none, eraseKey d k) := by
  have h2 : v.ttl > 0 ∧ now > v.ttl := hexp
  simp only [Database.Get, h, if_pos h2]

theorem Get_fst_some (now : Int) (d : Store) (k : String) (v : TriffValue)
    (h : (Database.Get now d k).1 = some v) :
    findVal d k = some v ∧ ¬ expired now v ∧ (Database.Get now d k).2 = d := by
  cases hf : findVal d k with
  | none =>
    rw [Get_eq_absent now d k hf] at h
    cases h
  | some w =>
    by_cases hc : expired now w
    · rw [Get_eq_expired now d k w hf hc] at h
      cases h
    · rw [Get_eq_live now d k w hf hc] at h
      have hv : w = v := by simpa using h
      subst hv
      exact ⟨rfl, hc, by rw [Get_eq_live now d k w hf hc]⟩

theorem Set_found_findVal (now : Int) (d : Store) (k : String) (v : TriffValue)
    (h : (findVal d k).isSome = true) :
    findVal (Database.Set now d k v) k = some { v with updatedAt := now } := by
  unfold Database.Set
  rw [h]
  simp [findVal_mapSet_self]

theorem Set_absent_findVal (now : Int) (d : Store) (k : String) (v : TriffValue)
    (h : findVal d k = none) :
    findVal (Database.Set now d k v) k =
      some { v with updatedAt := now, createdAt := now } := by
  unfold Database.Set
  rw [h]
  simp [findVal_mapSet_self]

/-! Claim C7. -/

/-- Claim C7 confirmed: on a well-typed store IncrBy never panics; when
the key is unreadable (absent or expired) it starts from 0; a found value
that is not STRING-typed yields the type-mismatch error and leaves the
store untouched; a STRING value whose payload does not parse as a decimal
int64 yields the not-an-integer error and leaves the store untouched; a
parsable value is incremented with int64 wrap-around and the decimal form
of the sum is written back.  Incr and Decr are IncrBy with delta 1 and -1. -/
theorem C7_incrby_contract (now : Int) (d : Store) (k : String) (inc : Int)
    (hwt : WTStore d) :
    (∃ res, StringCommands.IncrBy now d k inc = some res) ∧
    ((Database.Get now d k).1 = none →
      StringCommands.IncrBy now d k inc =
        some (okIntResp (wrap64 (0 + inc)),
          Database.Set now (Database.Get now d k).2 k
            (freshStringVal (intToDecString (wrap64 (0 + inc)))))) ∧
    (∀ v, (Database.Get now d k).1 = some v → v.type ≠ DataType.STRING →
      StringCommands.IncrBy now d k inc = some (typeMismatchResp, d)) ∧
    (∀ v s, (Database.Get now d k).1 = some v → v.type = DataType.STRING →
      v.data = GoValue.str s → parseInt64 s = none →
      StringCommands.IncrBy now d k inc = some (notIntegerResp, d)) ∧
    (∀ v s cur, (Database.Get now d k).1 = some v → v.type = DataType.STRING →
      v.data = GoValue.str s → parseInt64 s = some cur →
      StringCommands.IncrBy now d k inc =
        some (okIntResp (wrap64 (cur + inc)),
          Database.Set now d k (freshStringVal (intToDecString (wrap64 (cur + inc)))))) ∧
    StringCommands.Incr now d k = StringCommands.IncrBy now d k 1 ∧
    StringCommands.Decr now d k = StringCommands.IncrBy now d k (-1) := by
  have habsent : (Database.Get now d k).1 = none →
      StringCommands.IncrBy now d k inc =
        some (okIntResp (wrap64 (0 + inc)),
          Database.Set now (Database.Get now d k).2 k
            (freshStringVal (intToDecString (wrap64 (0 + inc))))) := by
    intro hg
    simp only [StringCommands.IncrBy, hg]
  have hmismatch : ∀ v, (Database.Get now d k).1 = some v →
      v.type ≠ DataType.STRING →
      StringCommands.IncrBy now d k inc = some (typeMismatchResp, d) := by
    intro v hg hne
    have hsnd := (Get_fst_some now d k v hg).2.2
    simp only [StringCommands.IncrBy, hg, if_pos hne, hsnd]
  have hbadparse : ∀ v s, (Database.Get now d k).1 = some v →
      v.type = DataType.STRING → v.data = GoValue.str s → parseInt64 s = none →
      StringCommands.IncrBy now d k inc = some (notIntegerResp, d) := by
    intro v s hg hty hdata hp
    have hsnd := (Get_fst_some now d k v hg).2.2
    have hne : ¬ (v.type ≠ DataType.STRING) := fun hn => hn hty
    simp only [StringCommands.IncrBy, hg, if_neg hne, hdata, hp, hsnd]
  have hgoodparse : ∀ v s cur, (Database.Get now d k).1 = some v →
      v.type = DataType.STRING → v.data = GoValue.str s → parseInt64 s = some cur →
      StringCommands.IncrBy now d k inc =
        some (okIntResp (wrap64 (cur + inc)),
          Database.Set now d k (freshStringVal (intToDecString (wrap64 (cur + inc))))) := by
    intro v s cur hg hty hdata hp
    have hsnd := (Get_fst_some now d k v hg).2.2
    have hne : ¬ (v.type ≠ DataType.STRING) := fun hn => hn hty
    simp only [StringCommands.IncrBy, hg, if_neg hne, hdata, hp, hsnd]
  refine ⟨?_, habsent, hmismatch, hbadparse, hgoodparse, rfl, rfl⟩
  cases hg : (Database.Get now d k).1 with
  | none => exact ⟨_, habsent hg⟩
  | some v =>
    by_cases hty : v.type = DataType.STRING
    · have hfind := (Get_fst_some now d k v hg).1
      obtain ⟨s, hs⟩ := hwt (k, v) (findVal_mem d k v hfind) hty
      cases hp : parseInt64 s with
      | none => exact ⟨_, hbadparse v s hg hty hs hp⟩
      | some cur => exact ⟨_, hgoodparse v s cur hg hty hs hp⟩
    · exact ⟨_, hmismatch v hg hty⟩

/-- Witness for C7_incrby_contract: incrementing the stored string 41 by
one stores 42. -/
theorem C7_incrby_contract_witness :
    (WTStore store41 ∧ (Database.Get 7 store41 "n").1 = some (freshStringVal "41") ∧
      parseInt64 "41" = some 41) ∧
    StringCommands.IncrBy 7 store41 "n" 1 =
      some (okIntResp (wrap64 (41 + 1)),
        Database.Set 7 store41 "n" (freshStringVal (intToDecString (wrap64 (41 + 1))))) :=
  ⟨⟨by decide, by decide, by decide⟩,
    (C7_incrby_contract 7 store41 "n" 1 (by decide)).2.2.2.2.1 (freshStringVal "41")
      "41" 41 (by decide) (by decide) (by decide) (by decide)⟩

/-! Claim C8. -/

/-- Claim C8 confirmed: starting from a readable key holding a string that
parses as the int64 value v0, IncrBy by n followed by IncrBy by the
negated delta leaves the key holding a string whose parsed integer value
is again v0 (the decimal form is canonicalised, the value is restored). -/
theorem C8_incrby_roundtrip (now1 now2 : Int) (d : Store) (k s : String)
    (v : TriffValue) (v0 n : Int)
    (hfind : findVal d k = some v) (hlive : ¬ expired now1 v)
    (hty : v.type = DataType.STRING) (hdata : v.data = GoValue.str s)
    (hparse : parseInt64 s = some v0) (hn : in64 n) (hmn : in64 (-n)) :
    ∃ r1 d1 r2 d2,
      StringCommands.IncrBy now1 d k n = some (r1, d1) ∧
      StringCommands.IncrBy now2 d1 k (-n) = some (r2, d2) ∧
      ∃ w s2, findVal d2 k = some w ∧ w.data = GoValue.str s2 ∧
        parseInt64 s2 = some v0 := by
  have hv0 : in64 v0 := parseInt64_in64 s v0 hparse
  have hget1 : Database.Get now1 d k = (some v, d) := Get_eq_live now1 d k v hfind hlive
  have hne : ¬ (v.type ≠ DataType.STRING) := fun hn2 => hn2 hty
  have hstep1 : StringCommands.IncrBy now1 d k n =
      some (okIntResp (wrap64 (v0 + n)),
        Database.Set now1 d k (freshStringVal (intToDecString (wrap64 (v0 + n))))) := by
    simp only [StringCommands.IncrBy, hget1, if_neg hne, hdata, hparse]
  set m1 : Int := wrap64 (v0 + n) with hm1
  set d1 : Store := Database.Set now1 d k (freshStringVal (intToDecString m1)) with hd1
  have hfind1 : findVal d1 k =
      some { freshStringVal (intToDecString m1) with updatedAt := now1 } := by
    rw [hd1]
    exact Set_found_findVal now1 d k _ (by rw [hfind]; rfl)
  set w1 : TriffValue := { freshStringVal (intToDecString m1) with updatedAt := now1 } with hw1
  have hw1ttl : w1.ttl = 0 := rfl
  have hlive1 : ¬ expired now2 w1 := fun hexp => by
    have := hexp.1
    rw [hw1ttl] at this
    omega
  have hget2 : Database.Get now2 d1 k = (some w1, d1) :=
    Get_eq_live now2 d1 k w1 hfind1 hlive1
  have hw1ty : ¬ (w1.type ≠ DataType.STRING) := fun hn2 => hn2 rfl
  have hparse1 : parseInt64 (intToDecString m1) = some m1 :=
    parseInt64_intToDecString m1 (wrap64_in64 _)
  have hw1data : w1.data = GoValue.str (intToDecString m1) := rfl
  have hstep2 : StringCommands.IncrBy now2 d1 k (-n) =
      some (okIntResp (wrap64 (m1 + -n)),
        Database.Set now2 d1 k (freshStringVal (intToDecString (wrap64 (m1 + -n))))) := by
    simp only [StringCommands.IncrBy, hget2, freshStringVal, hparse1]
    rw [if_neg (show ¬ (DataType.STRING ≠ DataType.STRING) from fun h => h rfl)]
  have hcancel : wrap64 (m1 + -n) = v0 := by
    rw [hm1]
    exact wrap64_cancel v0 n hv0
  set d2 : Store := Database.Set now2 d1 k (freshStringVal (intToDecString (wrap64 (m1 + -n)))) with hd2
  have hfind2 : findVal d2 k =
      some { freshStringVal (intToDecString (wrap64 (m1 + -n))) with updatedAt := now2 } := by
    rw [hd2]
    exact Set_found_findVal now2 d1 k _ (by rw [hfind1]; rfl)
  refine ⟨_, d1, _, d2, hstep1, hstep2, ?_⟩
  refine ⟨_, intToDecString (wrap64 (m1 + -n)), hfind2, rfl, ?_⟩
  rw [hcancel]
  exact parseInt64_intToDecString v0 hv0

/-- Witness for C8_incrby_roundtrip: 41 plus 7 minus 7 parses back to 41. -/
theorem C8_incrby_roundtrip_witness :
    (findVal store41 "n" = some (freshStringVal "41") ∧
      parseInt64 "41" = some 41 ∧ in64 7 ∧ in64 (-7)) ∧
    (∃ r1 d1 r2 d2,
      StringCommands.IncrBy 1 store41 "n" 7 = some (r1, d1) ∧
      StringCommands.IncrBy 2 d1 "n" (-7) = some (r2, d2) ∧
      ∃ w s2, findVal d2 "n" = some w ∧ w.data = GoValue.str s2 ∧
        parseInt64 s2 = some 41) :=
  ⟨⟨by decide, by decide, by decide, by decide⟩,
    C8_incrby_roundtrip 1 2 store41 "n" "41" (freshStringVal "41") 41 7
      (by decide) (by decide) (by decide) (by decide) (by decide) (by decide) (by decide)⟩

/-! Claim C9. -/

/-- Claim C9 confirmed: GetRange adjusts negative indices from the end of
the string, clamps the bounds, and returns the empty string when the
adjusted start exceeds the adjusted end; on the store holding hello, the
ranges (0, -1), (10, 20) and (-3, -1) yield hello, the empty string and
llo respectively. -/
theorem C9_getrange_contract (s : String) (a b : Int) :
    StringCommands.GetRange 0 helloStore "h" 0 (-1) =
      some (okStrResp "hello", helloStore) ∧
    StringCommands.GetRange 0 helloStore "h" 10 20 =
      some (okStrResp "", helloStore) ∧
    StringCommands.GetRange 0 helloStore "h" (-3) (-1) =
      some (okStrResp "llo", helloStore) ∧
    (adjStart s a > adjEnd s b → getRangeStr s a b = "") ∧
    (-(s.length : Int) ≤ a → a < 0 →
      getRangeStr s a b = getRangeStr s ((s.length : Int) + a) b) ∧
    (-(s.length : Int) ≤ b → b < 0 →
      getRangeStr s a b = getRangeStr s a ((s.length : Int) + b)) := by
  refine ⟨by decide, by decide, by decide, ?_, ?_, ?_⟩
  · intro h
    simp only [adjStart, adjEnd] at h
    simp only [getRangeStr]
    rw [if_pos h]
  · intro h1 h2
    have e1 : (if a < 0 then (s.length : Int) + a else a) = (s.length : Int) + a :=
      if_pos h2
    have e2 : (if ((s.length : Int) + a) < 0 then
        (s.length : Int) + ((s.length : Int) + a) else ((s.length : Int) + a)) =
        (s.length : Int) + a :=
      if_neg (by omega)
    simp only [getRangeStr, e1, e2]
  · intro h1 h2
    have e1 : (if b < 0 then (s.length : Int) + b else b) = (s.length : Int) + b :=
      if_pos h2
    have e2 : (if ((s.length : Int) + b) < 0 then
        (s.length : Int) + ((s.length : Int) + b) else ((s.length : Int) + b)) =
        (s.length : Int) + b :=
      if_neg (by omega)
    simp only [getRangeStr, e1, e2]

/-- Witness for C9_getrange_contract: a negative start index counts from
the end of the string abc. -/
theorem C9_getrange_contract_witness :
    ((-(("abc" : String).length : Int) ≤ -2 ∧ (-2 : Int) < 0)) ∧
    getRangeStr "abc" (-2) 1 = getRangeStr "abc" ((("abc" : String).length : Int) + -2) 1 :=
  ⟨⟨by decide, by decide⟩,
    (C9_getrange_contract "abc" (-2) 1).2.2.2.2.1 (by decide) (by decide)⟩

/-! Claim C10. -/

/-- Claim C10 confirmed: when key k holds a live STRING value with an
expiration deadline set, a successful Append — and likewise a successful
IncrBy when the payload parses — stores a freshly built value whose TTL
field is 0, so the previously set expiration is cleared: every later Get
finds the key and GetTTL reports no expiration. -/
theorem C10_ttl_cleared (now : Int) (d : Store) (k : String) (v : TriffValue)
    (xval : String) (n : Int) (s : String)
    (hfind : findVal d k = some v) (httl : v.ttl > 0) (hnotyet : ¬ now > v.ttl)
    (hty : v.type = DataType.STRING) (hdata : v.data = GoValue.str s) :
    (∃ r d2 w, StringCommands.Append now d k xval = some (r, d2) ∧
      findVal d2 k = some w ∧ w.ttl = 0 ∧
      (∀ t, (Database.Get t d2 k).1 = some w) ∧
      Database.GetTTL now d2 k = -1) ∧
    (∀ cur, parseInt64 s = some cur →
      ∃ r d2 w, StringCommands.IncrBy now d k n = some (r, d2) ∧
        findVal d2 k = some w ∧ w.ttl = 0 ∧
        (∀ t, (Database.Get t d2 k).1 = some w) ∧
        Database.GetTTL now d2 k = -1) := by
  have hlive : ¬ expired now v := fun hexp => hnotyet hexp.2
  have hget : Database.Get now d k = (some v, d) := Get_eq_live now d k v hfind hlive
  have hsome : (findVal d k).isSome = true := by rw [hfind]; rfl
  constructor
  · have hstep : StringCommands.Append now d k xval =
        some ({ success := true, data := RespData.int (((s ++ xval).length : Nat) : Int),
                 error := "", type := "integer" },
          Database.Set now d k (freshStringVal (s ++ xval))) := by
      simp only [StringCommands.Append, hget, hdata, if_pos hty]
    set d2 : Store := Database.Set now d k (freshStringVal (s ++ xval)) with hd2
    have hfind2 : findVal d2 k =
        some { freshStringVal (s ++ xval) with updatedAt := now } := by
      rw [hd2]
      exact Set_found_findVal now d k _ hsome
    set w : TriffValue := { freshStringVal (s ++ xval) with updatedAt := now } with hw
    have hwttl : w.ttl = 0 := rfl
    refine ⟨_, d2, w, hstep, hfind2, hwttl, ?_, ?_⟩
    · intro t
      have hl : ¬ expired t w := fun hexp => by
        have := hexp.1
        rw [hwttl] at this
        omega
      rw [Get_eq_live t d2 k w hfind2 hl]
    · simp only [Database.GetTTL, hfind2]
      rw [if_pos hwttl]
  · intro cur hp
    have hne : ¬ (v.type ≠ DataType.STRING) := fun hn2 => hn2 hty
    have hstep : StringCommands.IncrBy now d k n =
        some (okIntResp (wrap64 (cur + n)),
          Database.Set now d k (freshStringVal (intToDecString (wrap64 (cur + n))))) := by
      simp only [StringCommands.IncrBy, hget, if_neg hne, hdata, hp]
    set d2 : Store := Database.Set now d k (freshStringVal (intToDecString (wrap64 (cur + n)))) with hd2
    have hfind2 : findVal d2 k =
        some { freshStringVal (intToDecString (wrap64 (cur + n))) with updatedAt := now } := by
      rw [hd2]
      exact Set_found_findVal now d k _ hsome
    set w : TriffValue :=
      { freshStringVal (intToDecString (wrap64 (cur + n))) with updatedAt := now } with hw
    have hwttl : w.ttl = 0 := rfl
    refine ⟨_, d2, w, hstep, hfind2, hwttl, ?_, ?_⟩
    · intro t
      have hl : ¬ expired t w := fun hexp => by
        have := hexp.1
        rw [hwttl] at this
        omega
      rw [Get_eq_live t d2 k w hfind2 hl]
    · simp only [Database.GetTTL, hfind2]
      rw [if_pos hwttl]

/-- Witness for C10_ttl_cleared: a live key with deadline 100 loses its
expiration after Append and after IncrBy. -/
theorem C10_ttl_cleared_witness :
    (findVal ttlStore "k" = some ttlNumVal ∧ ttlNumVal.ttl > 0 ∧
      ¬ (50 : Int) > ttlNumVal.ttl ∧ parseInt64 "5" = some 5) ∧
    ((∃ r d2 w, StringCommands.Append 50 ttlStore "k" "x" = some (r, d2) ∧
      findVal d2 "k" = some w ∧ w.ttl = 0 ∧
      (∀ t, (Database.Get t d2 "k").1 = some w) ∧
      Database.GetTTL 50 d2 "k" = -1) ∧
    (∃ r d2 w, StringCommands.IncrBy 50 ttlStore "k" 3 = some (r, d2) ∧
      findVal d2 "k" = some w ∧ w.ttl = 0 ∧
      (∀ t, (Database.Get t d2 "k").1 = some w) ∧
      Database.GetTTL 50 d2 "k" = -1)) :=
  ⟨⟨by decide, by decide, by decide, by decide⟩,
    (C10_ttl_cleared 50 ttlStore "k" ttlNumVal "x" 3 "5"
      (by decide) (by decide) (by decide) (by decide) (by decide)).1,
    (C10_ttl_cleared 50 ttlStore "k" ttlNumVal "x" 3 "5"
      (by decide) (by decide) (by decide) (by decide) (by decide)).2 5 (by decide)⟩
